import Mathlib

/-!
Verification of the text-field extraction and patch engine of
`packages/cms/src/page-scanner.ts`.

Modelling conventions (shallow embedding):

* The UTF-8 byte buffer of a JavaScript string (`TextEncoder.encode`) is a
  `List Nat`.  A JavaScript string itself is a Lean `String`; `strBytes`
  computes its UTF-8 encoding.  `TextDecoder.decode` followed by comparison
  with a string `v` is modelled as comparison of the byte slice with
  `strBytes v` (UTF-8 encoding is canonical, so the two agree).
* `string.indexOf(pat)` on a string decoded from a byte region, followed by
  re-encoding the prefix to obtain a byte offset (the pattern used throughout
  the scanner), is modelled as `byteIndexOf` on the byte region: UTF-8 is
  self-synchronising, so the first byte-level occurrence of the encoded
  pattern is the first character-level occurrence.
* JavaScript `string.length` counts UTF-16 code units; this is `utf16Len`.
* The AST delivered by the external document parser (an out-of-scope
  collaborator) is the closed node set `Node`; each node carries the byte
  offset `position.start.offset` as an `Option Nat`.  Concrete ASTs appearing
  below are the parses of the concrete sources, written out explicitly.
-/

/-- UTF-8 encoding of a single code point, as byte values. -/
def utf8Bytes (c : Nat) : List Nat :=
  if c < 0x80 then [c]
  else if c < 0x800 then [0xC0 + c / 64, 0x80 + c % 64]
  else if c < 0x10000 then [0xE0 + c / 4096, 0x80 + (c / 64) % 64, 0x80 + c % 64]
  else [0xF0 + c / 262144, 0x80 + (c / 4096) % 64, 0x80 + (c / 64) % 64, 0x80 + c % 64]

/-- UTF-8 bytes of a string (the model of `TextEncoder.encode`). -/
def strBytes (s : String) : List Nat :=
  s.data.foldr (fun c acc => utf8Bytes c.toNat ++ acc) []

/-- Number of UTF-16 code units of a string (JavaScript `string.length`). -/
def utf16Len (s : String) : Nat :=
  s.data.foldr (fun c n => (if c.toNat < 0x10000 then 1 else 2) + n) 0

/-- Membership in the JavaScript regular-expression class `\s`. -/
def jsWhitespace (c : Char) : Bool :=
  [9, 10, 11, 12, 13, 32, 160, 0x1680, 0x2028, 0x2029, 0x202F, 0x205F,
    0x3000, 0xFEFF].contains c.toNat
  || (0x2000 ≤ c.toNat && c.toNat ≤ 0x200A)

/-- Test of the regular expression `^\s*$` used by the whitespace filter. -/
def wsOnly (s : String) : Bool :=
  s.data.all jsWhitespace

/-- JavaScript `string.trim()`. -/
def jsTrim (s : String) : String :=
  ⟨((s.data.dropWhile jsWhitespace).reverse.dropWhile jsWhitespace).reverse⟩

/-- Elements whose text children should be skipped (`SKIP_ELEMENTS`). -/
def SKIP_ELEMENTS : List String := ["script", "style", "head", "code", "pre"]

/-- Attributes that contain user-visible content (`CONTENT_ATTRS`). -/
def CONTENT_ATTRS : List String :=
  ["alt", "title", "placeholder", "aria-label", "aria-description"]

/-- Component props that contain user-visible content (`CONTENT_PROPS`). -/
def CONTENT_PROPS : List String :=
  ["title", "subtitle", "heading", "description", "label", "text", "cta",
    "alt", "placeholder"]

/-- Elements that always contain meaningful text content (`CONTENT_ELEMENTS`). -/
def CONTENT_ELEMENTS : List String :=
  ["h1", "h2", "h3", "h4", "h5", "h6", "p", "a", "button", "label",
    "span", "li", "td", "th", "figcaption", "blockquote", "dt", "dd"]

/-- Section-level landmark elements for field grouping (`SECTION_ELEMENTS`). -/
def SECTION_ELEMENTS : List String :=
  ["header", "section", "footer", "nav", "main", "article", "aside"]

/-- Kind of an attribute node as reported by the parser; the scanner only
distinguishes `quoted` from everything else. -/
inductive AttrKind where
  | quoted
  | expression
  | emptyAttr
  | shorthand
  | spread
  | templateLiteral
deriving DecidableEq, Repr

/-- Attribute of an element or component node. -/
structure Attr where
  name : String
  kind : AttrKind
  value : String
deriving DecidableEq, Repr

/-- AST node set consumed from the external document parser: document root,
element, component, text, dynamic expression and frontmatter, each position
carrying a byte offset into the source. -/
inductive Node where
  | root (children : List Node)
  | element (name : String) (attributes : List Attr) (children : List Node)
      (pos : Option Nat)
  | component (name : String) (attributes : List Attr) (children : List Node)
      (pos : Option Nat)
  | text (value : String) (pos : Option Nat)
  | expression (children : List Node) (pos : Option Nat)
  | frontmatter (pos : Option Nat)

/-- One editable field discovered by extraction (`PageTextField`); `kind` is
the literal string tag used by the scanner, "text" or "attribute". -/
structure PageTextField where
  id : String
  label : String
  value : String
  kind : String
  offset : Nat
  length : Nat
  multiline : Bool
  group : String
deriving DecidableEq, Repr

/-- One submitted edit: `{id, oldValue, value}` as received by
`applyTextEdits`. -/
structure Edit where
  id : String
  oldValue : String
  value : String
deriving DecidableEq, Repr

/-- One scheduled byte replacement inside `applyTextEdits`. -/
structure Replacement where
  offset : Nat
  length : Nat
  newValue : String
deriving DecidableEq, Repr

/-- Character-scan loop of `findOpenTagEnd`: walks the decoded window
tracking quote state and brace depth, returning the index right after the
first top-level `>` (all tracked characters are ASCII, so scanning the bytes
is the same as scanning the characters). -/
def scanTagEnd : List Nat → Option Nat → Nat → Nat → Option Nat
  | [], _, _, _ => none
  | b :: rest, inQuote, braceDepth, i =>
    match inQuote with
    | some q =>
      if b = q then scanTagEnd rest none braceDepth (i + 1)
      else scanTagEnd rest (some q) braceDepth (i + 1)
    | none =>
      if b = 34 ∨ b = 39 then scanTagEnd rest (some b) braceDepth (i + 1)
      else if b = 123 then scanTagEnd rest none (braceDepth + 1) (i + 1)
      else if b = 125 then scanTagEnd rest none (braceDepth - 1) (i + 1)
      else if b = 62 ∧ braceDepth = 0 then some (i + 1)
      else scanTagEnd rest inQuote braceDepth (i + 1)

/-- Find the byte offset right after the opening tag's `>` , skipping `>`
inside quoted strings and brace expression regions; the scan window is the
2000 bytes starting at `startOffset` (`findOpenTagEnd`). -/
def findOpenTagEnd (src : List Nat) (startOffset : Nat) : Option Nat :=
  (scanTagEnd ((src.drop startOffset).take 2000) none 0 0).map
    (fun i => startOffset + i)

/-- First index at which `pat` occurs as a contiguous sublist of `l`
(the model of JavaScript `indexOf`, measured in bytes). -/
def byteIndexOf : List Nat → List Nat → Option Nat
  | [], pat => if pat.isEmpty then some 0 else none
  | b :: t, pat =>
    if pat.isPrefixOf (b :: t) then some 0
    else (byteIndexOf t pat).map (fun i => i + 1)

example : byteIndexOf (strBytes "subtitle=Y title=") (strBytes "title=") = some 3 := by
  decide

example : findOpenTagEnd (strBytes "<img alt=\"A > B\" src={a > b} />") 0 = some 31 := by
  decide

/-- Does the node satisfy the parser's `is.parent` (root, element, component
or expression)? -/
def Node.isParent : Node → Bool
  | .root _ => true
  | .element _ _ _ _ => true
  | .component _ _ _ _ => true
  | .expression _ _ => true
  | _ => false

/-- Children of a parent node, `[]` for leaves. -/
def Node.childrenOf : Node → List Node
  | .root cs => cs
  | .element _ _ cs _ => cs
  | .component _ _ cs _ => cs
  | .expression cs _ => cs
  | _ => []

/-- Does `parent.children` contain an element, component or expression node
(the "structural indentation" test of the whitespace filter)? -/
def hasNonTextSibling (parent : Node) : Bool :=
  parent.childrenOf.any fun c =>
    match c with
    | .element _ _ _ _ => true
    | .component _ _ _ _ => true
    | .expression _ _ => true
    | _ => false

/-- Label derived from the parent node: `parentName ++ " text"` for an
element or component parent, `"text"` otherwise. -/
def textLabel : Option Node → String
  | some (.element n _ _ _) => n ++ " text"
  | some (.component n _ _ _) => n ++ " text"
  | _ => "text"

/-- Whitespace filter of `extractTextField`: a whitespace-only text node is
dropped when it has no parent, when any sibling is an element, component or
expression, or when the parent is not a content-bearing element. -/
def wsFilterPass (parent : Option Node) (value : String) : Bool :=
  if wsOnly value then
    match parent with
    | none => false
    | some p =>
      if !p.isParent then false
      else if hasNonTextSibling p then false
      else
        match p with
        | .element n _ _ _ => CONTENT_ELEMENTS.contains n
        | _ => false
  else true

/-- Offset-and-verify part of `extractTextField`: slice the source bytes at
the node's recorded offset, discard the field unless the slice decodes to
exactly the node's value, then build the field record. -/
def textFieldAt (src : List Nat) (parent : Option Node) (group : String)
    (value : String) (offset : Nat) : Option PageTextField :=
  if (src.drop offset).take (strBytes value).length ≠ strBytes value then none
  else
    some
      { id := "text:" ++ toString offset
        label := textLabel parent
        value := value
        kind := "text"
        offset := offset
        length := (strBytes value).length
        multiline := decide (80 < utf16Len value) || value.data.any (fun c => c == '\n')
        group := group }

/-- Model of `extractTextField`: position check, whitespace filter, byte
verification, field construction. -/
def extractTextField (src : List Nat) (parent : Option Node) (group : String)
    (value : String) (pos : Option Nat) : Option PageTextField :=
  match pos with
  | none => none
  | some offset =>
    if wsFilterPass parent value then textFieldAt src parent group value offset
    else none

/-- Model of `findAttributeValueOffset`: bound the search to the opening tag
(or a 2000-byte window when no `>` is found), look for `name="` then
`name='`, and return the byte offset right after the quote of the first
occurrence. -/
def findAttributeValueOffset (src : List Nat) (parentPos : Option Nat)
    (attrName : String) : Option Nat :=
  match parentPos with
  | none => none
  | some startOffset =>
    let tagEnd := findOpenTagEnd src startOffset
    let searchEnd := tagEnd.getD (min (startOffset + 2000) src.length)
    let searchRegion := (src.drop startOffset).take (searchEnd - startOffset)
    match byteIndexOf searchRegion (strBytes attrName ++ [61, 34]) with
    | some idx => some (startOffset + idx + (strBytes attrName).length + 2)
    | none =>
      match byteIndexOf searchRegion (strBytes attrName ++ [61, 39]) with
      | some idx => some (startOffset + idx + (strBytes attrName).length + 2)
      | none => none

/-- Allow-list used by `extractAttrFields`: prop names for components,
attribute names for elements. -/
def attrAllowlist (isComp : Bool) : List String :=
  if isComp then CONTENT_PROPS else CONTENT_ATTRS

/-- Model of `extractAttrFields`: keep quoted, allow-listed attributes whose
trimmed value has at least 2 code units, locate the value in the opening
tag, verify the bytes, and build the field record. -/
def extractAttrFields (src : List Nat) (tagName : String) (isComp : Bool)
    (attrs : List Attr) (tagPos : Option Nat) (group : String) :
    List PageTextField :=
  attrs.filterMap fun attr =>
    if attr.kind ≠ AttrKind.quoted then none
    else if !(attrAllowlist isComp).contains attr.name then none
    else if utf16Len (jsTrim attr.value) < 2 then none
    else
      match findAttributeValueOffset src tagPos attr.name with
      | none => none
      | some attrOffset =>
        if (src.drop attrOffset).take (strBytes attr.value).length ≠
            strBytes attr.value then none
        else
          some
            { id := "attr:" ++ toString attrOffset ++ ":" ++ attr.name
              label := tagName ++ " " ++ attr.name
              value := attr.value
              kind := "attribute"
              offset := attrOffset
              length := (strBytes attr.value).length
              multiline := false
              group := group }

/-- Association-list lookup of the per-tag section counter. -/
def getCnt (cnt : List (String × Nat)) (n : String) : Nat :=
  match cnt.find? (fun p => p.1 == n) with
  | some p => p.2
  | none => 0

/-- Association-list update of the per-tag section counter. -/
def setCnt : List (String × Nat) → String → Nat → List (String × Nat)
  | [], n, v => [(n, v)]
  | p :: t, n, v => if p.1 == n then (n, v) :: t else p :: setCnt t n v

/-- Group update on entering an element: when the tag is a section landmark,
bump its counter and derive the group id (`name` for the first occurrence,
`name:N` afterwards); otherwise keep the inherited group. -/
def sectionGroup (nm : String) (group : String) (cnt : List (String × Nat)) :
    String × List (String × Nat) :=
  if SECTION_ELEMENTS.contains nm then
    let c := getCnt cnt nm + 1
    ((if c = 1 then nm else nm ++ ":" ++ toString c), setCnt cnt nm c)
  else (group, cnt)

/-- Phantom field synthesized after visiting the children of an unskipped
content-bearing element with no children and no text field produced. -/
def phantomFields (src : List Nat) (shouldSkip : Bool) (nm : String)
    (children : List Node) (pos : Option Nat) (childFields : List PageTextField)
    (group : String) : List PageTextField :=
  if shouldSkip then []
  else if !CONTENT_ELEMENTS.contains nm then []
  else if childFields.any (fun f => f.kind == "text") then []
  else if !children.isEmpty then []
  else
    match pos with
    | none => []
    | some startOff =>
      match findOpenTagEnd src startOff with
      | none => []
      | some insertOffset =>
        [{ id := "text:" ++ toString insertOffset
           label := nm ++ " text"
           value := ""
           kind := "text"
           offset := insertOffset
           length := 0
           multiline := false
           group := group }]

mutual
/-- Model of the recursive walk `visit` of `extractTextFields`: returns the
fields contributed by this node and its subtree (in push order: own text
field, own attribute fields, child fields, phantom field) together with the
updated section counters. -/
def visit (src : List Nat) (node : Node) (parent : Option Node) (skip : Bool)
    (group : String) (cnt : List (String × Nat)) :
    List PageTextField × List (String × Nat) :=
  match node with
  | .root children =>
    let r := visitList src children (.root children) skip group cnt
    (r.1, r.2)
  | .element nm attrs children p =>
    let shouldSkip := skip || SKIP_ELEMENTS.contains nm
    let gc := sectionGroup nm group cnt
    let own := if shouldSkip then []
      else extractAttrFields src nm false attrs p gc.1
    let r := visitList src children (.element nm attrs children p) shouldSkip
      gc.1 gc.2
    let ph := phantomFields src shouldSkip nm children p r.1 gc.1
    (own ++ r.1 ++ ph, r.2)
  | .component nm attrs children p =>
    let own := if skip then []
      else extractAttrFields src nm true attrs p group
    let r := visitList src children (.component nm attrs children p) skip
      group cnt
    (own ++ r.1, r.2)
  | .text v p =>
    (if skip then [] else (extractTextField src parent group v p).toList, cnt)
  | .expression children p =>
    let r := visitList src children (.expression children p) true group cnt
    (r.1, r.2)
  | .frontmatter _ => ([], cnt)

/-- Left-to-right walk over the children of a parent node, threading the
section counters. -/
def visitList (src : List Nat) (children : List Node) (parentN : Node)
    (skip : Bool) (group : String) (cnt : List (String × Nat)) :
    List PageTextField × List (String × Nat) :=
  match children with
  | [] => ([], cnt)
  | c :: rest =>
    let r1 := visit src c (some parentN) skip group cnt
    let r2 := visitList src rest parentN skip group r1.2
    (r1.1 ++ r2.1, r2.2)
end

/-- Model of `extractTextFields`: walk the parsed AST of the source over its
UTF-8 bytes, starting unskipped, ungrouped and with fresh section counters. -/
def extractTextFields (src : List Nat) (ast : Node) : List PageTextField :=
  (visit src ast none false "" []).1

/-- Resolution of one edit inside `applyTextEdits`: find the field by id;
for the empty-oldValue marker insert only into a still-empty field;
otherwise verify the bytes at the field offset against `oldValue`, falling
back to a search for `oldValue` within a window of 200 bytes around the
field's span; drop the edit when nothing matches. -/
def editReplacement (src : List Nat) (fields : List PageTextField)
    (edit : Edit) : Option Replacement :=
  match fields.find? (fun f => f.id == edit.id) with
  | none => none
  | some field =>
    if edit.oldValue = "" then
      if field.length ≠ 0 then none
      else some { offset := field.offset, length := 0, newValue := edit.value }
    else
      if (src.drop field.offset).take (strBytes edit.oldValue).length =
          strBytes edit.oldValue then
        some { offset := field.offset, length := (strBytes edit.oldValue).length,
               newValue := edit.value }
      else
        match byteIndexOf
            ((src.drop (field.offset - 200)).take
              (min src.length (field.offset + (strBytes edit.oldValue).length + 200) -
                (field.offset - 200)))
            (strBytes edit.oldValue) with
        | some fallbackIdx =>
          some { offset := field.offset - 200 + fallbackIdx,
                 length := (strBytes edit.oldValue).length, newValue := edit.value }
        | none => none

/-- Replacements scheduled by the resolution loop of `applyTextEdits`, in
edit order. -/
def scheduleReplacements (src : List Nat) (fields : List PageTextField)
    (edits : List Edit) : List Replacement :=
  edits.filterMap (editReplacement src fields)

/-- Model of `spliceBytes`: replace the bytes at
`[offset, offset + length)` with the UTF-8 encoding of `replacement`. -/
def spliceBytes (src : List Nat) (offset length : Nat) (replacement : String) :
    List Nat :=
  src.take offset ++ strBytes replacement ++ src.drop (offset + length)

/-- Insert a replacement into a descending-offset-sorted list, before the
first entry of equal or smaller offset (keeping earlier entries of equal
offset earlier). -/
def insertDesc (a : Replacement) : List Replacement → List Replacement
  | [] => [a]
  | b :: t => if a.offset < b.offset then b :: insertDesc a t else a :: b :: t

/-- Stable sort by descending offset — the result of JavaScript's stable
`sort` with comparator `(a, b) => b.offset - a.offset`. -/
def sortByOffsetDesc : List Replacement → List Replacement
  | [] => []
  | a :: t => insertDesc a (sortByOffsetDesc t)

/-- Model of `applyTextEdits`: re-extract fields from the current source,
resolve each edit to a replacement, sort by descending offset (stably, as
JavaScript `sort` does) and splice end-to-start. -/
def applyTextEdits (src : List Nat) (ast : Node) (edits : List Edit) :
    List Nat :=
  let fields := extractTextFields src ast
  let replacements := scheduleReplacements src fields edits
  let sorted := sortByOffsetDesc replacements
  sorted.foldl (fun acc rep => spliceBytes acc rep.offset rep.length rep.newValue)
    src

example :
    extractTextFields (strBytes "<h2></h2>") (.root [.element "h2" [] [] (some 0)]) =
      [{ id := "text:4", label := "h2 text", value := "", kind := "text",
         offset := 4, length := 0, multiline := false, group := "" }] := by
  decide

/-- When `byteIndexOf` reports index `i`, the pattern really occurs at `i`. -/
theorem byteIndexOf_prefix :
    ∀ (l pat : List Nat) (i : Nat), byteIndexOf l pat = some i →
      pat <+: l.drop i := by
  intro l
  induction l with
  | nil =>
    intro pat i h
    rw [byteIndexOf] at h
    split at h
    · rename_i hp
      cases h
      have hp2 : pat = [] := List.isEmpty_iff.mp hp
      subst hp2
      simp
    · cases h
  | cons b t ih =>
    intro pat i h
    rw [byteIndexOf] at h
    split at h
    · rename_i hp
      cases h
      simpa using List.isPrefixOf_iff_prefix.mp hp
    · rename_i hp
      rcases Option.map_eq_some'.mp h with ⟨j, hj, rfl⟩
      simpa using ih pat j hj

/-- Splicing a range with the exact bytes it already holds is the identity. -/
theorem spliceBytes_self (src : List Nat) (o l : Nat) (v : String)
    (h : (src.drop o).take l = strBytes v) : spliceBytes src o l v = src := by
  unfold spliceBytes
  rw [← h]
  have hdd : src.drop (o + l) = (src.drop o).drop l := by
    rw [List.drop_drop, Nat.add_comm]
  rw [hdd, List.append_assoc, List.take_append_drop, List.take_append_drop]

/-- Any replacement resolved from an edit whose new value equals its old
value replaces a byte range with the exact bytes it already holds. -/
theorem editReplacement_self (src : List Nat) (fields : List PageTextField)
    (e : Edit) (he : e.value = e.oldValue) (r : Replacement)
    (h : editReplacement src fields e = some r) :
    (src.drop r.offset).take r.length = strBytes r.newValue := by
  unfold editReplacement at h
  split at h
  · cases h
  · rename_i g hf
    split at h
    · rename_i h0
      split at h
      · cases h
      · cases h
        have hz : strBytes e.value = [] := by rw [he, h0]; rfl
        simp [hz]
    · rename_i h0
      split at h
      · rename_i hd
        cases h
        simpa [he] using hd
      · split at h
        · rename_i fallbackIdx hidx
          cases h
          have hpre := byteIndexOf_prefix _ _ _ hidx
          have h1 : ((src.drop (g.offset - 200)).take
              (min src.length (g.offset + (strBytes e.oldValue).length + 200) -
                (g.offset - 200))).drop fallbackIdx <+:
              (src.drop (g.offset - 200)).drop fallbackIdx := by
            rw [List.drop_take]
            exact List.take_prefix _ _
          have h2 : (src.drop (g.offset - 200)).drop fallbackIdx =
              src.drop (g.offset - 200 + fallbackIdx) := by
            rw [List.drop_drop, Nat.add_comm]
          have hpre2 : strBytes e.oldValue <+:
              src.drop (g.offset - 200 + fallbackIdx) :=
            h2 ▸ hpre.trans h1
          have h3 := List.prefix_iff_eq_take.mp hpre2
          simp only [he]
          exact h3.symm
        · cases h

/-- Folding identity splices over a byte buffer leaves it unchanged. -/
theorem foldl_spliceBytes_self (reps : List Replacement) (src : List Nat)
    (h : ∀ r ∈ reps, (src.drop r.offset).take r.length = strBytes r.newValue) :
    reps.foldl (fun acc rep => spliceBytes acc rep.offset rep.length rep.newValue)
      src = src := by
  induction reps with
  | nil => rfl
  | cons r rest ih =>
    simp only [List.foldl_cons]
    rw [spliceBytes_self src _ _ _ (h r (List.mem_cons_self r rest))]
    exact ih fun q hq => h q (List.mem_cons_of_mem r hq)

/-- Insertion into the sorted list preserves membership. -/
theorem mem_insertDesc (a r : Replacement) :
    ∀ (l : List Replacement), r ∈ insertDesc a l ↔ r = a ∨ r ∈ l := by
  intro l
  induction l with
  | nil => simp [insertDesc]
  | cons b t ih =>
    rw [insertDesc]
    split
    · simp only [List.mem_cons, ih]
      tauto
    · simp [List.mem_cons]

/-- The descending sort preserves membership. -/
theorem mem_sortByOffsetDesc (r : Replacement) :
    ∀ (l : List Replacement), r ∈ sortByOffsetDesc l ↔ r ∈ l := by
  intro l
  induction l with
  | nil => simp [sortByOffsetDesc]
  | cons a t ih =>
    rw [sortByOffsetDesc, mem_insertDesc]
    simp [ih]

/-- Applying any batch of edits whose new values equal their old values is
the identity on the source. -/
theorem applyTextEdits_self (src : List Nat) (ast : Node) (edits : List Edit)
    (h : ∀ e ∈ edits, e.value = e.oldValue) :
    applyTextEdits src ast edits = src := by
  unfold applyTextEdits
  apply foldl_spliceBytes_self
  intro r hr
  rw [mem_sortByOffsetDesc] at hr
  unfold scheduleReplacements at hr
  rcases List.mem_filterMap.mp hr with ⟨e, he, hrep⟩
  exact editReplacement_self src _ e (h e he) r hrep

/-- C3: applying the identity batch built from a fresh extraction — one edit
`{id: f.id, oldValue: f.value, newValue: f.value}` per extracted field —
returns the source unchanged, for every source and AST. -/
theorem applyTextEdits_noop (src : List Nat) (ast : Node) :
    applyTextEdits src ast
      ((extractTextFields src ast).map
        (fun f => { id := f.id, oldValue := f.value, value := f.value })) =
      src := by
  apply applyTextEdits_self
  intro e he
  rcases List.mem_map.mp he with ⟨f, _, rfl⟩
  rfl

/-- Soundness invariant of one extracted field: the byte slice at
`[offset, offset + length)` is exactly the UTF-8 encoding of `value` (and
`length` is its byte length), attribute fields carry `multiline = false`,
and text fields carry the computed multiline flag. -/
def FieldOK (src : List Nat) (f : PageTextField) : Prop :=
  (src.drop f.offset).take f.length = strBytes f.value ∧
  f.length = (strBytes f.value).length ∧
  (f.kind = "attribute" → f.multiline = false) ∧
  (f.kind = "text" →
    f.multiline =
      (decide (80 < utf16Len f.value) || f.value.data.any (fun c => c == '\n')))

/-- Fields built by `textFieldAt` satisfy the invariant. -/
theorem textFieldAt_ok (src : List Nat) (parent : Option Node) (group : String)
    (value : String) (offset : Nat) (f : PageTextField)
    (h : textFieldAt src parent group value offset = some f) : FieldOK src f := by
  unfold textFieldAt at h
  split at h
  · cases h
  · rename_i hslice
    cases h
    refine ⟨not_not.mp hslice, rfl, ?_, fun _ => rfl⟩
    intro hk
    simp at hk

/-- Fields built by `extractTextField` satisfy the invariant. -/
theorem extractTextField_ok (src : List Nat) (parent : Option Node)
    (group : String) (value : String) (pos : Option Nat) (f : PageTextField)
    (h : extractTextField src parent group value pos = some f) : FieldOK src f := by
  unfold extractTextField at h
  split at h
  · cases h
  · split at h
    · exact textFieldAt_ok _ _ _ _ _ _ h
    · cases h

/-- Fields built by `extractAttrFields` satisfy the invariant. -/
theorem extractAttrFields_ok (src : List Nat) (tagName : String) (isComp : Bool)
    (attrs : List Attr) (tagPos : Option Nat) (group : String)
    (f : PageTextField)
    (h : f ∈ extractAttrFields src tagName isComp attrs tagPos group) :
    FieldOK src f := by
  unfold extractAttrFields at h
  rcases List.mem_filterMap.mp h with ⟨attr, _, ha⟩
  split at ha
  · cases ha
  · split at ha
    · cases ha
    · split at ha
      · cases ha
      · split at ha
        · cases ha
        · rename_i attrOffset hoff
          split at ha
          · cases ha
          · rename_i hslice
            cases ha
            refine ⟨not_not.mp hslice, rfl, fun _ => rfl, ?_⟩
            intro hk
            simp at hk

/-- Fields built by `phantomFields` satisfy the invariant. -/
theorem phantomFields_ok (src : List Nat) (shouldSkip : Bool) (nm : String)
    (children : List Node) (pos : Option Nat) (childFields : List PageTextField)
    (group : String) (f : PageTextField)
    (h : f ∈ phantomFields src shouldSkip nm children pos childFields group) :
    FieldOK src f := by
  unfold phantomFields at h
  split at h
  · cases h
  · split at h
    · cases h
    · split at h
      · cases h
      · split at h
        · cases h
        · split at h
          · cases h
          · split at h
            · cases h
            · rcases List.mem_singleton.mp h with rfl
              refine ⟨rfl, rfl, ?_, fun _ => rfl⟩
              intro hk
              simp at hk

/-- Lift per-child soundness of `visit` to `visitList`. -/
theorem visitList_ok_of (src : List Nat) (l : List Node)
    (H : ∀ c ∈ l, ∀ parent skip group cnt f,
      f ∈ (visit src c parent skip group cnt).1 → FieldOK src f) :
    ∀ parentN skip group cnt f,
      f ∈ (visitList src l parentN skip group cnt).1 → FieldOK src f := by
  induction l with
  | nil =>
    intro parentN skip group cnt f hf
    simp [visitList] at hf
  | cons c rest ih =>
    intro parentN skip group cnt f hf
    rw [visitList] at hf
    rcases List.mem_append.mp hf with hf | hf
    · exact H c (List.mem_cons_self c rest) _ _ _ _ f hf
    · exact ih (fun d hd => H d (List.mem_cons_of_mem c hd)) _ _ _ _ f hf

/-- Every field produced anywhere in the recursive walk satisfies the
invariant (strong induction on the node size). -/
theorem visit_ok (src : List Nat) :
    ∀ (n : Nat) (node : Node), sizeOf node < n →
      ∀ parent skip group cnt f,
        f ∈ (visit src node parent skip group cnt).1 → FieldOK src f := by
  intro n
  induction n with
  | zero => intro node h; omega
  | succ n ih =>
    intro node hlt parent skip group cnt f hf
    have hlist : ∀ (cs : List Node), sizeOf cs < sizeOf node →
        ∀ parentN skip group cnt f,
          f ∈ (visitList src cs parentN skip group cnt).1 → FieldOK src f := by
      intro cs hcs
      refine visitList_ok_of src cs ?_
      intro c hc parent2 skip2 group2 cnt2 f2 hf2
      have hsz := List.sizeOf_lt_of_mem hc
      exact ih c (by omega) parent2 skip2 group2 cnt2 f2 hf2
    cases node with
    | root children =>
      rw [visit] at hf
      exact hlist children (by simp; try omega) _ _ _ _ f hf
    | element nm attrs children p =>
      rw [visit] at hf
      simp only [] at hf
      rcases List.mem_append.mp hf with hf | hf
      · rcases List.mem_append.mp hf with hf | hf
        · split at hf
          · simp at hf
          · exact extractAttrFields_ok _ _ _ _ _ _ f hf
        · exact hlist children (by simp; try omega) _ _ _ _ f hf
      · exact phantomFields_ok _ _ _ _ _ _ _ f hf
    | component nm attrs children p =>
      rw [visit] at hf
      rcases List.mem_append.mp hf with hf | hf
      · split at hf
        · simp at hf
        · exact extractAttrFields_ok _ _ _ _ _ _ f hf
      · exact hlist children (by simp; try omega) _ _ _ _ f hf
    | text v p =>
      rw [visit] at hf
      split at hf
      · simp at hf
      · rcases Option.mem_toList.mp hf with hsome
        exact extractTextField_ok _ _ _ _ _ f hsome
    | expression children p =>
      rw [visit] at hf
      exact hlist children (by simp; try omega) _ _ _ _ f hf
    | frontmatter p =>
      rw [visit] at hf
      simp at hf

/-- Every field returned by `extractTextFields` satisfies the invariant. -/
theorem extractTextFields_ok (src : List Nat) (ast : Node) (f : PageTextField)
    (hf : f ∈ extractTextFields src ast) : FieldOK src f :=
  visit_ok src (sizeOf ast + 1) ast (Nat.lt_succ_self _) none false "" [] f hf

/-- Source `<p>café 🎉</p>` with multi-byte characters. -/
def srcCafe : List Nat := strBytes "<p>café 🎉</p>"

/-- Parse of `<p>café 🎉</p>`: the text node starts at byte offset 3. -/
def astCafe : Node := .root [.element "p" [] [.text "café 🎉" (some 3)] (some 0)]

/-- Field extracted from `<p>café 🎉</p>`: 10 UTF-8 bytes at offset 3. -/
def fieldCafe : PageTextField :=
  { id := "text:3", label := "p text", value := "café 🎉", kind := "text",
    offset := 3, length := 10, multiline := false, group := "" }

/-- C1: for every source and AST, every field produced by `extractTextFields`
— text, attribute and phantom fields alike — satisfies byte exactness: the
UTF-8 bytes of the source at `[offset, offset + length)` are exactly the
encoding of the field's value, and `length` is that encoding's byte
length. -/
theorem extractTextFields_byte_exact (src : List Nat) (ast : Node)
    (f : PageTextField) (hf : f ∈ extractTextFields src ast) :
    (src.drop f.offset).take f.length = strBytes f.value ∧
    f.length = (strBytes f.value).length :=
  ⟨(extractTextFields_ok src ast f hf).1, (extractTextFields_ok src ast f hf).2.1⟩

/-- Witness for C1 on the multi-byte source `<p>café 🎉</p>`. -/
theorem extractTextFields_byte_exact_witness :
    fieldCafe ∈ extractTextFields srcCafe astCafe ∧
    ((srcCafe.drop fieldCafe.offset).take fieldCafe.length =
        strBytes fieldCafe.value ∧
      fieldCafe.length = (strBytes fieldCafe.value).length) :=
  ⟨by decide, extractTextFields_byte_exact srcCafe astCafe fieldCafe (by decide)⟩

/-- Source `<img alt="x…x" />` whose alt value is 81 characters long. -/
def srcImg81 : List Nat :=
  strBytes ("<img alt=\"" ++ (⟨List.replicate 81 'x'⟩ : String) ++ "\" />")

/-- Parse of the 81-character-alt image tag. -/
def astImg81 : Node :=
  .root [.element "img" [⟨"alt", .quoted, ⟨List.replicate 81 'x'⟩⟩] [] (some 0)]

/-- Field extracted for the 81-character alt attribute. -/
def fieldImg81 : PageTextField :=
  { id := "attr:10:alt", label := "img alt", value := ⟨List.replicate 81 'x'⟩,
    kind := "attribute", offset := 10, length := 81, multiline := false,
    group := "" }

/-- C5 counterexample: extraction of `<img alt="x…x" />` (81-character alt)
yields exactly one field, whose value is longer than 80 characters yet whose
multiline flag is false — refuting the claim that every field has
`multiline = (length > 80 or contains newline)`. -/
theorem attr_multiline_cex :
    extractTextFields srcImg81 astImg81 = [fieldImg81] ∧
    fieldImg81.multiline = false ∧ 80 < utf16Len fieldImg81.value := by
  refine ⟨by decide, rfl, by decide⟩

/-- C5 amended: a text field's multiline flag is true exactly when the value
is longer than 80 UTF-16 code units or contains a newline; an attribute
field's multiline flag is always false. -/
theorem extractTextFields_multiline (src : List Nat) (ast : Node)
    (f : PageTextField) (hf : f ∈ extractTextFields src ast) :
    (f.kind = "attribute" → f.multiline = false) ∧
    (f.kind = "text" →
      f.multiline =
        (decide (80 < utf16Len f.value) ||
          f.value.data.any (fun c => c == '\n'))) :=
  ⟨(extractTextFields_ok src ast f hf).2.2.1,
    (extractTextFields_ok src ast f hf).2.2.2⟩

/-- Witness for the amended C5 at the 81-character alt field. -/
theorem extractTextFields_multiline_witness :
    fieldImg81 ∈ extractTextFields srcImg81 astImg81 ∧
    ((fieldImg81.kind = "attribute" → fieldImg81.multiline = false) ∧
      (fieldImg81.kind = "text" →
        fieldImg81.multiline =
          (decide (80 < utf16Len fieldImg81.value) ||
            fieldImg81.value.data.any (fun c => c == '\n')))) :=
  ⟨by decide,
    extractTextFields_multiline srcImg81 astImg81 fieldImg81 (by decide)⟩

/-- Content-bearing elements are never in the skip set. -/
theorem contains_not_skip (nm : String)
    (h : CONTENT_ELEMENTS.contains nm = true) :
    SKIP_ELEMENTS.contains nm = false := by
  have hm : nm ∈ CONTENT_ELEMENTS := by simpa using h
  have hall : ∀ x ∈ CONTENT_ELEMENTS, SKIP_ELEMENTS.contains x = false := by
    decide
  exact hall nm hm

/-- Source `<h2></h2>`. -/
def srcH2 : List Nat := strBytes "<h2></h2>"

/-- Parse of `<h2></h2>`: an empty h2 element at offset 0. -/
def astH2 : Node := .root [.element "h2" [] [] (some 0)]

/-- Phantom field synthesized for `<h2></h2>`, placed right after the `>`
that closes `<h2>` (byte offset 4). -/
def fieldH2 : PageTextField :=
  { id := "text:4", label := "h2 text", value := "", kind := "text",
    offset := 4, length := 0, multiline := false, group := "" }

/-- C6: extraction of `<h2></h2>` yields exactly the phantom field (kind
text, value `""`, length 0, label `h2 text`) at the byte position right
after the opening tag's `>`; and in general, visiting an unskipped
content-bearing element with zero children whose opening tag end is found
synthesizes exactly such a phantom field. -/
theorem phantom_insertion :
    extractTextFields srcH2 astH2 = [fieldH2] ∧
    ∀ (src : List Nat) (nm : String) (attrs : List Attr) (startOff e : Nat)
      (parent : Option Node) (group : String) (cnt : List (String × Nat)),
      CONTENT_ELEMENTS.contains nm = true →
      findOpenTagEnd src startOff = some e →
      ({ id := "text:" ++ toString e, label := nm ++ " text", value := "",
         kind := "text", offset := e, length := 0, multiline := false,
         group := (sectionGroup nm group cnt).1 } : PageTextField) ∈
        (visit src (.element nm attrs [] (some startOff)) parent false group
          cnt).1 := by
  constructor
  · decide
  · intro src nm attrs startOff e parent group cnt hc hfind
    have hskip : SKIP_ELEMENTS.contains nm = false := contains_not_skip nm hc
    rw [visit]
    simp only [hskip, Bool.or_false, visitList, phantomFields, hc, hfind,
      Bool.not_true, Bool.false_eq_true, if_false, List.any_nil,
      List.isEmpty_nil, List.mem_append, List.mem_singleton]
    simp

/-- Witness for the general part of C6 at the `<h2></h2>` instance. -/
theorem phantom_insertion_witness :
    CONTENT_ELEMENTS.contains "h2" = true ∧
    findOpenTagEnd srcH2 0 = some 4 ∧
    fieldH2 ∈ (visit srcH2 (.element "h2" [] [] (some 0)) none false "" []).1 := by
  refine ⟨by decide, by decide, ?_⟩
  have h := phantom_insertion.2 srcH2 "h2" [] 0 4 none "" [] (by decide)
    (by decide)
  exact h

/-- Attributes of the `<img alt="A cat" src={dynamicUrl} />` tag: a quoted
alt and a dynamic-expression src. -/
def attrsImg : List Attr :=
  [⟨"alt", .quoted, "A cat"⟩, ⟨"src", .expression, "dynamicUrl"⟩]

/-- Source `<img alt="A cat" src={dynamicUrl} />`. -/
def srcImg : List Nat := strBytes "<img alt=\"A cat\" src={dynamicUrl} />"

/-- Parse of `<img alt="A cat" src={dynamicUrl} />`. -/
def astImg : Node := .root [.element "img" attrsImg [] (some 0)]

/-- Field extracted for the alt attribute (value bytes start at offset 10). -/
def fieldImg : PageTextField :=
  { id := "attr:10:alt", label := "img alt", value := "A cat",
    kind := "attribute", offset := 10, length := 5, multiline := false,
    group := "" }

/-- C7: extraction of `<img alt="A cat" src={dynamicUrl} />` yields exactly
one field — the alt attribute with value `A cat` — and in general every
field produced by `extractAttrFields` comes from an attribute that is
literally quoted, on the allow-list for its node kind, and whose trimmed
value has at least 2 code units. -/
theorem attribute_filtering :
    extractTextFields srcImg astImg = [fieldImg] ∧
    ∀ (src : List Nat) (tagName : String) (isComp : Bool) (attrs : List Attr)
      (tagPos : Option Nat) (group : String) (f : PageTextField),
      f ∈ extractAttrFields src tagName isComp attrs tagPos group →
      ∃ attr ∈ attrs, attr.kind = AttrKind.quoted ∧
        (attrAllowlist isComp).contains attr.name = true ∧
        2 ≤ utf16Len (jsTrim attr.value) ∧ f.value = attr.value := by
  constructor
  · decide
  · intro src tagName isComp attrs tagPos group f h
    unfold extractAttrFields at h
    rcases List.mem_filterMap.mp h with ⟨attr, hmem, ha⟩
    refine ⟨attr, hmem, ?_⟩
    split at ha
    · cases ha
    · rename_i hkind
      split at ha
      · cases ha
      · rename_i hallow
        split at ha
        · cases ha
        · rename_i hlen
          split at ha
          · cases ha
          · split at ha
            · cases ha
            · cases ha
              exact ⟨not_not.mp hkind, by simpa using hallow, by omega, rfl⟩

/-- Witness for the general part of C7 at the alt field of the image tag. -/
theorem attribute_filtering_witness :
    fieldImg ∈ extractAttrFields srcImg "img" false attrsImg (some 0) "" ∧
    ∃ attr ∈ attrsImg, attr.kind = AttrKind.quoted ∧
      (attrAllowlist false).contains attr.name = true ∧
      2 ≤ utf16Len (jsTrim attr.value) ∧ fieldImg.value = attr.value :=
  ⟨by decide,
    attribute_filtering.2 srcImg "img" false attrsImg (some 0) "" fieldImg
      (by decide)⟩

/-- Source `<div>\n  <p>Hi</p>\n</div>`. -/
def srcDiv : List Nat := strBytes "<div>\n  <p>Hi</p>\n</div>"

/-- The div element of that source, with its indentation text siblings. -/
def divNode : Node :=
  .element "div" []
    [.text "\n  " (some 5),
      .element "p" [] [.text "Hi" (some 11)] (some 8),
      .text "\n" (some 17)]
    (some 0)

/-- Parse of `<div>\n  <p>Hi</p>\n</div>`. -/
def astDiv : Node := .root [divNode]

/-- Field extracted for the `Hi` text inside `<p>`. -/
def fieldHi : PageTextField :=
  { id := "text:11", label := "p text", value := "Hi", kind := "text",
    offset := 11, length := 2, multiline := false, group := "" }

/-- C9: extraction of `<div>\n  <p>Hi</p>\n</div>` yields exactly the `Hi`
field and never the indentation text nodes; in general a whitespace-only
text node with an element, component or expression sibling is never
extracted, while whitespace-only text that is the sole content of a
content-bearing element is kept (when its recorded bytes verify). -/
theorem whitespace_suppression :
    extractTextFields srcDiv astDiv = [fieldHi] ∧
    (∀ (src : List Nat) (parent : Node) (group : String) (value : String)
      (pos : Option Nat),
      wsOnly value = true → hasNonTextSibling parent = true →
      extractTextField src (some parent) group value pos = none) ∧
    (∀ (src : List Nat) (pname : String) (pattrs : List Attr)
      (ppos : Option Nat) (group : String) (value : String) (o : Nat),
      wsOnly value = true → CONTENT_ELEMENTS.contains pname = true →
      (src.drop o).take (strBytes value).length = strBytes value →
      ∃ f, extractTextField src
          (some (.element pname pattrs [.text value (some o)] ppos)) group
          value (some o) = some f ∧ f.value = value) := by
  refine ⟨by decide, ?_, ?_⟩
  · intro src parent group value pos hws hsib
    unfold extractTextField
    cases pos with
    | none => rfl
    | some o =>
      have hfail : wsFilterPass (some parent) value = false := by
        unfold wsFilterPass
        rw [if_pos hws]
        by_cases hp : parent.isParent
        · simp [hp, hsib]
        · simp [hp]
      rw [hfail]
      simp
  · intro src pname pattrs ppos group value o hws hcont hslice
    have hm : pname ∈ CONTENT_ELEMENTS := by simpa using hcont
    have hpass :
        wsFilterPass (some (.element pname pattrs [.text value (some o)] ppos))
          value = true := by
      unfold wsFilterPass
      rw [if_pos hws]
      simp [Node.isParent, hasNonTextSibling, Node.childrenOf, hm]
    simp [extractTextField, textFieldAt, hpass, hslice]

/-- Witness for the general parts of C9: the indentation node of the div
example is suppressed, and a whitespace-only sole text child of `<p>` is
kept. -/
theorem whitespace_suppression_witness :
    extractTextField srcDiv (some divNode) "" "\n  " (some 5) = none ∧
    ∃ f, extractTextField (strBytes "<p> </p>")
        (some (.element "p" [] [.text " " (some 3)] (some 0))) "" " "
        (some 3) = some f ∧ f.value = " " :=
  ⟨whitespace_suppression.2.1 srcDiv divNode "" "\n  " (some 5) (by decide)
      (by decide),
    whitespace_suppression.2.2 (strBytes "<p> </p>") "p" [] (some 0) "" " " 3
      (by decide) (by decide) (by decide)⟩

/-- Source `<Card subtitle="Hi" title="Yo" />` (differing values). -/
def srcCard1 : List Nat := strBytes "<Card subtitle=\"Hi\" title=\"Yo\" />"

/-- Parse of `<Card subtitle="Hi" title="Yo" />`. -/
def astCard1 : Node :=
  .root [.component "Card"
    [⟨"subtitle", .quoted, "Hi"⟩, ⟨"title", .quoted, "Yo"⟩] [] (some 0)]

/-- Source `<Card subtitle="Hi" title="Hi" />` (equal values). -/
def srcCard2 : List Nat := strBytes "<Card subtitle=\"Hi\" title=\"Hi\" />"

/-- Parse of `<Card subtitle="Hi" title="Hi" />`. -/
def astCard2 : Node :=
  .root [.component "Card"
    [⟨"subtitle", .quoted, "Hi"⟩, ⟨"title", .quoted, "Hi"⟩] [] (some 0)]

/-- Subtitle field of both Card tags: subtitle's value bytes start at
offset 16. -/
def fieldSub : PageTextField :=
  { id := "attr:16:subtitle", label := "Card subtitle", value := "Hi",
    kind := "attribute", offset := 16, length := 2, multiline := false,
    group := "" }

/-- Title field emitted for the equal-values Card tag: its offset 16 is the
offset of subtitle's value, not of title's own value. -/
def fieldTitleAtSub : PageTextField :=
  { id := "attr:16:title", label := "Card title", value := "Hi",
    kind := "attribute", offset := 16, length := 2, multiline := false,
    group := "" }

/-- C10: the first occurrence of `title="` inside
`<Card subtitle="Hi" title="Yo" />` lies inside `subtitle="`, so the locator
returns subtitle's value offset 16 for title; consequently extraction of the
differing-values tag silently drops the title field, while extraction of the
equal-values tag emits a title field whose offset equals the subtitle
field's offset. -/
theorem attr_offset_first_occurrence :
    findAttributeValueOffset srcCard1 (some 0) "title" = some 16 ∧
    extractTextFields srcCard1 astCard1 = [fieldSub] ∧
    extractTextFields srcCard2 astCard2 = [fieldSub, fieldTitleAtSub] ∧
    fieldTitleAtSub.offset = fieldSub.offset := by
  refine ⟨by decide, by decide, by decide, rfl⟩

/-- Source `<p>Hi</p>`. -/
def srcPHi : List Nat := strBytes "<p>Hi</p>"

/-- Parse of `<p>Hi</p>`. -/
def astPHi : Node := .root [.element "p" [] [.text "Hi" (some 3)] (some 0)]

/-- C8: an edit with empty oldValue resolves to a zero-length insertion at
the matched field's offset exactly when the field matched by id has length
0; when the matched field has non-zero length — or no field with the id
exists — the edit contributes nothing, and dropping it from the batch does
not change the result of `applyTextEdits`. -/
theorem empty_oldValue_insertion :
    (∀ (src : List Nat) (fields : List PageTextField) (edit : Edit)
      (f : PageTextField),
      edit.oldValue = "" →
      fields.find? (fun g => g.id == edit.id) = some f →
      (f.length = 0 →
        editReplacement src fields edit =
          some { offset := f.offset, length := 0, newValue := edit.value }) ∧
      (f.length ≠ 0 → editReplacement src fields edit = none)) ∧
    (∀ (src : List Nat) (ast : Node) (edits1 edits2 : List Edit) (edit : Edit),
      edit.oldValue = "" →
      ((extractTextFields src ast).find? (fun g => g.id == edit.id)).all
        (fun f => f.length != 0) = true →
      applyTextEdits src ast (edits1 ++ edit :: edits2) =
        applyTextEdits src ast (edits1 ++ edits2)) := by
  constructor
  · intro src fields edit f h0 hfind
    constructor
    · intro hlen
      unfold editReplacement
      simp only [hfind]
      rw [if_pos h0, if_neg (by omega)]
    · intro hlen
      unfold editReplacement
      simp only [hfind]
      rw [if_pos h0, if_pos hlen]
  · intro src ast edits1 edits2 edit h0 hall
    have hnone : editReplacement src (extractTextFields src ast) edit = none := by
      unfold editReplacement
      cases hfind : (extractTextFields src ast).find? (fun g => g.id == edit.id) with
      | none => simp only [hfind]
      | some f =>
        rw [hfind] at hall
        simp only [hfind]
        rw [if_pos h0, if_pos (by simpa using hall)]
    simp only [applyTextEdits, scheduleReplacements, List.filterMap_append,
      List.filterMap_cons, hnone]

/-- Witness for C8: inserting into the still-empty `<h2></h2>` phantom is
scheduled as a zero-length insertion at offset 4, and an empty-oldValue edit
against the non-empty `Hi` field leaves the batch result unchanged. -/
theorem empty_oldValue_insertion_witness :
    editReplacement srcH2 [fieldH2] { id := "text:4", oldValue := "", value := "New" } =
      some { offset := 4, length := 0, newValue := "New" } ∧
    applyTextEdits srcPHi astPHi
        ([] ++ { id := "text:3", oldValue := "", value := "X" } ::
          [{ id := "text:3", oldValue := "Hi", value := "Yo" }]) =
      applyTextEdits srcPHi astPHi ([] ++ [{ id := "text:3", oldValue := "Hi", value := "Yo" }]) :=
  ⟨(empty_oldValue_insertion.1 srcH2 [fieldH2]
      { id := "text:4", oldValue := "", value := "New" } fieldH2 rfl
      (by decide)).1 rfl,
    empty_oldValue_insertion.2 srcPHi astPHi []
      [{ id := "text:3", oldValue := "Hi", value := "Yo" }]
      { id := "text:3", oldValue := "", value := "X" } rfl (by decide)⟩

/-- Source `<p>Hello</p>`. -/
def srcPHello : List Nat := strBytes "<p>Hello</p>"

/-- Parse of `<p>Hello</p>`. -/
def astPHello : Node := .root [.element "p" [] [.text "Hello" (some 3)] (some 0)]

/-- Disjointness of the byte ranges of two replacements. -/
def RangesDisjoint (a b : Replacement) : Prop :=
  a.offset + a.length ≤ b.offset ∨ b.offset + b.length ≤ a.offset

instance : DecidableRel RangesDisjoint := fun a b => by
  unfold RangesDisjoint
  infer_instance

/-- Disjointness of the byte spans of two fields. -/
def SpansDisjoint (a b : PageTextField) : Prop :=
  a.offset + a.length ≤ b.offset ∨ b.offset + b.length ≤ a.offset

instance : DecidableRel SpansDisjoint := fun a b => by
  unfold SpansDisjoint
  infer_instance

/-- C4 counterexample: on `<p>Hello</p>`, the two-edit batch
`[{text:3, "Hello" → "Hello"}, {text:3, "ello" → "X"}]` schedules the
replacements `[3, 8)` (direct match) and `[4, 8)` (fallback match), which
overlap — refuting the claim that scheduled ranges are pairwise
non-overlapping for every batch of edits. -/
theorem scheduleReplacements_overlap_cex :
    scheduleReplacements srcPHello (extractTextFields srcPHello astPHello)
        [{ id := "text:3", oldValue := "Hello", value := "Hello" },
          { id := "text:3", oldValue := "ello", value := "X" }] =
      [{ offset := 3, length := 5, newValue := "Hello" },
        { offset := 4, length := 4, newValue := "X" }] ∧
    ¬ (scheduleReplacements srcPHello (extractTextFields srcPHello astPHello)
        [{ id := "text:3", oldValue := "Hello", value := "Hello" },
          { id := "text:3", oldValue := "ello", value := "X" }]).Pairwise
        RangesDisjoint := by
  have haux :
      scheduleReplacements srcPHello (extractTextFields srcPHello astPHello)
          [{ id := "text:3", oldValue := "Hello", value := "Hello" },
            { id := "text:3", oldValue := "ello", value := "X" }] =
        [{ offset := 3, length := 5, newValue := "Hello" },
          { offset := 4, length := 4, newValue := "X" }] := by decide
  refine ⟨haux, ?_⟩
  intro h
  rw [haux] at h
  have h1 := List.rel_of_pairwise_cons h (List.mem_singleton.mpr rfl)
  unfold RangesDisjoint at h1
  simp at h1

/-- With pairwise distinct ids, the id lookup of a member field returns that
field itself. -/
theorem find_id_eq_self :
    ∀ (fields : List PageTextField) (f : PageTextField), f ∈ fields →
      (fields.map (fun g => g.id)).Nodup →
      fields.find? (fun g => g.id == f.id) = some f := by
  intro fields
  induction fields with
  | nil => intro f hf; cases hf
  | cons h t ih =>
    intro f hf hnodup
    rcases List.mem_cons.mp hf with rfl | hft
    · exact List.find?_cons_of_pos _ (by simp)
    · have hne : h.id ≠ f.id := by
        intro he
        have : f.id ∈ t.map (fun g => g.id) := List.mem_map_of_mem _ hft
        rw [List.map_cons, List.nodup_cons] at hnodup
        exact hnodup.1 (he ▸ this)
      rw [List.find?_cons_of_neg _ (by simpa using hne)]
      exact ih f hft ((List.map_cons _ h t ▸ hnodup).of_cons)

/-- For a field satisfying the invariant whose id lookup returns itself, the
identity edit resolves to the replacement covering exactly the field's
span. -/
theorem editReplacement_identity (src : List Nat)
    (fields : List PageTextField) (f : PageTextField) (e : Edit)
    (he1 : e.id = f.id) (he2 : e.oldValue = f.value) (he3 : e.value = f.value)
    (hOK : FieldOK src f)
    (hfind : fields.find? (fun g => g.id == f.id) = some f) :
    editReplacement src fields e =
      some { offset := f.offset, length := f.length, newValue := f.value } := by
  unfold editReplacement
  simp only [he1, he2, he3, hfind]
  by_cases h0 : f.value = ""
  · have hlen : f.length = 0 := by
      rw [hOK.2.1, h0]
      rfl
    rw [if_pos h0, if_neg (by omega), hlen]
  · rw [if_neg h0, if_pos (hOK.2.1 ▸ hOK.1), ← hOK.2.1]

/-- For a fresh-extraction identity batch over fields with pairwise distinct
ids, the scheduled replacements are exactly the field spans. -/
theorem scheduleReplacements_identity (src : List Nat)
    (fields : List PageTextField) (hOK : ∀ f ∈ fields, FieldOK src f)
    (hnodup : (fields.map (fun g => g.id)).Nodup) :
    scheduleReplacements src fields
        (fields.map (fun f => { id := f.id, oldValue := f.value, value := f.value })) =
      fields.map (fun f => { offset := f.offset, length := f.length, newValue := f.value }) := by
  unfold scheduleReplacements
  rw [List.filterMap_map]
  have haux : ∀ (l : List PageTextField), (∀ f ∈ l, f ∈ fields) →
      l.filterMap ((editReplacement src fields) ∘
          (fun f => ({ id := f.id, oldValue := f.value, value := f.value } : Edit))) =
        l.map (fun f => { offset := f.offset, length := f.length, newValue := f.value }) := by
    intro l
    induction l with
    | nil => intro _; rfl
    | cons a t ih =>
      intro hsub
      rw [List.filterMap_cons, List.map_cons]
      have ha : a ∈ fields := hsub a (List.mem_cons_self a t)
      rw [Function.comp_apply,
        editReplacement_identity src fields a _ rfl rfl rfl (hOK a ha)
          (find_id_eq_self fields a ha hnodup)]
      rw [ih (fun f hf => hsub f (List.mem_cons_of_mem a hf))]
  exact haux fields (fun f hf => hf)

/-- C4 amended: for the identity batch built from a fresh extraction, when
the extracted fields have pairwise distinct ids and pairwise disjoint byte
spans, the replacements `applyTextEdits` schedules occupy exactly the field
spans and are pairwise non-overlapping (the original claim fails for
arbitrary batches, where a fallback match may overlap a direct match). -/
theorem scheduleReplacements_disjoint (src : List Nat) (ast : Node)
    (hnodup : ((extractTextFields src ast).map (fun g => g.id)).Nodup)
    (hdisj : (extractTextFields src ast).Pairwise SpansDisjoint) :
    scheduleReplacements src (extractTextFields src ast)
        ((extractTextFields src ast).map
          (fun f => { id := f.id, oldValue := f.value, value := f.value })) =
      (extractTextFields src ast).map
        (fun f => { offset := f.offset, length := f.length, newValue := f.value }) ∧
    (scheduleReplacements src (extractTextFields src ast)
        ((extractTextFields src ast).map
          (fun f => { id := f.id, oldValue := f.value, value := f.value }))).Pairwise
      RangesDisjoint := by
  have heq := scheduleReplacements_identity src (extractTextFields src ast)
    (fun f hf => extractTextFields_ok src ast f hf) hnodup
  refine ⟨heq, ?_⟩
  rw [heq, List.pairwise_map]
  exact hdisj.imp (fun hab => hab)

/-- Source `<p>Hi</p><p>Yo</p>` with two disjoint text fields. -/
def srcTwoP : List Nat := strBytes "<p>Hi</p><p>Yo</p>"

/-- Parse of `<p>Hi</p><p>Yo</p>`. -/
def astTwoP : Node :=
  .root [.element "p" [] [.text "Hi" (some 3)] (some 0),
    .element "p" [] [.text "Yo" (some 12)] (some 9)]

/-- Witness for the amended C4 on `<p>Hi</p><p>Yo</p>`. -/
theorem scheduleReplacements_disjoint_witness :
    ((extractTextFields srcTwoP astTwoP).map (fun g => g.id)).Nodup ∧
    (extractTextFields srcTwoP astTwoP).Pairwise SpansDisjoint ∧
    (scheduleReplacements srcTwoP (extractTextFields srcTwoP astTwoP)
        ((extractTextFields srcTwoP astTwoP).map
          (fun f => { id := f.id, oldValue := f.value, value := f.value }))).Pairwise
      RangesDisjoint :=
  ⟨by decide, by decide,
    (scheduleReplacements_disjoint srcTwoP astTwoP (by decide) (by decide)).2⟩

/-- Original source for the stale-edit scenario:
`<p>` + 70 × `a` + `</p><p>Hello</p>`; the `Hello` field is recorded at byte
offset 80. -/
def srcStale0 : List Nat :=
  strBytes ("<p>" ++ (⟨List.replicate 70 'a'⟩ : String) ++ "</p><p>Hello</p>")

/-- Parse of the original stale-edit source. -/
def astStale0 : Node :=
  .root [.element "p" [] [.text ⟨List.replicate 70 'a'⟩ (some 3)] (some 0),
    .element "p" [] [.text "Hello" (some 80)] (some 77)]

/-- Modified source: 5 unrelated bytes `KKKKK` inserted at byte offset 30 —
50 bytes before the recorded offset 80 — shifting `Hello` to offset 85. -/
def srcStale1 : List Nat :=
  strBytes ("<p>" ++ (⟨List.replicate 27 'a'⟩ : String) ++ "KKKKK" ++
    (⟨List.replicate 43 'a'⟩ : String) ++ "</p><p>Hello</p>")

/-- Parse of the modified stale-edit source. -/
def astStale1 : Node :=
  .root [.element "p" []
      [.text (⟨List.replicate 27 'a'⟩ ++ "KKKKK" ++ ⟨List.replicate 43 'a'⟩)
        (some 3)] (some 0),
    .element "p" [] [.text "Hello" (some 85)] (some 82)]

/-- C2 counterexample: the `Hello` field is extracted from the original
source with id `text:80`; after inserting 5 unrelated bytes 50 bytes before
that offset the exact oldValue still occurs at offset 85, well within 200
bytes of the recorded offset — yet `applyTextEdits` returns the modified
source unchanged (the replacement text `WORLD` appears nowhere), because the
fresh extraction re-derives offset-based ids and `text:80` no longer
matches any field. -/
theorem stale_edit_insert_before_cex :
    ({ id := "text:80", label := "p text", value := "Hello", kind := "text",
        offset := 80, length := 5, multiline := false, group := "" } :
        PageTextField) ∈ extractTextFields srcStale0 astStale0 ∧
    srcStale1 = srcStale0.take 30 ++ strBytes "KKKKK" ++ srcStale0.drop 30 ∧
    byteIndexOf srcStale1 (strBytes "Hello") = some 85 ∧ 85 < 80 + 200 ∧
    applyTextEdits srcStale1 astStale1
        [{ id := "text:80", oldValue := "Hello", value := "WORLD" }] =
      srcStale1 ∧
    byteIndexOf srcStale1 (strBytes "WORLD") = none := by
  refine ⟨by decide, by decide, by decide, by decide, by decide, by decide⟩

/-- Drifted source `<p>XX Hello</p>`: the text node still begins at the
recorded offset 3, but `Hello` now sits at offset 6. -/
def srcDrift : List Nat := strBytes "<p>XX Hello</p>"

/-- Parse of `<p>XX Hello</p>`. -/
def astDrift : Node :=
  .root [.element "p" [] [.text "XX Hello" (some 3)] (some 0)]

/-- C2 amended: an insertion before a field changes the field's offset-based
id, so such an edit is dropped; the ±200-byte fallback instead covers drift
inside the field — when the text node still begins at the recorded offset
but the bytes there no longer match, an edit whose oldValue occurs in the
window is applied at the found location, and an edit whose oldValue is
absent from the window is dropped without affecting other edits of the
batch. -/
theorem stale_edit_fallback :
    applyTextEdits srcDrift astDrift
        [{ id := "text:3", oldValue := "Hello", value := "WORLD" }] =
      strBytes "<p>XX WORLD</p>" ∧
    applyTextEdits srcDrift astDrift
        [{ id := "text:3", oldValue := "Zebra", value := "Q" },
          { id := "text:3", oldValue := "Hello", value := "WORLD" }] =
      strBytes "<p>XX WORLD</p>" := by
  refine ⟨by decide, by decide⟩
